import Mathlib

/-!
Shallow embedding of the zkbricks/sanctum core, with theorems checking the
natural-language specification against the code.

Conventions of the embedding:
- 32-byte digests, field elements and curve-point coordinates are abstracted
  as natural numbers (`Hash := Nat`); byte strings are `List Nat`.
- The SHA-256 compression `H(left || right)` and similar external primitives
  are parameters (`h2 : Hash → Hash → Hash`, etc.); the spec treats them as
  opaque collision-resistant black boxes provided by an external library.
- Machine integers (`u32`) are naturals reduced modulo `2^32` where the code
  can wrap.
- Fallible operations return `Except` for the code paths with explicit error
  values; `Option` wraps computations that can panic (a failed `unwrap`,
  a failed `assert!`, an out-of-range indexing), `none` meaning the panic.
-/

namespace Sanctum

abbrev Hash := Nat

/-- Wrap-around modulus of the `u32` machine integers used by the services
and the contract. -/
def U32 : Nat := 2 ^ 32

/-! ## On-chain payment contract (src/contracts/payment/src/lib.rs) -/

namespace Contract

/-- const MERKLE_TREE_LEVELS of the contract deployment. -/
def MERKLE_TREE_LEVELS : Nat := 15

/-- const ROOT_HISTORY_SIZE of the contract deployment. -/
def ROOT_HISTORY_SIZE : Nat := 30

/-- The contract error enum; the source defines exactly these three variants. -/
inductive SanctumError where
  | ContractUnititialized
  | IllegalContractCall
  | DuplicateNullifier
deriving DecidableEq, Repr

/-- The repr(u32) discriminants of the error enum. -/
def SanctumError.code : SanctumError → Nat
  | .ContractUnititialized => 1
  | .IllegalContractCall => 2
  | .DuplicateNullifier => 3

/-- The `zeros` table of the contract: `zeros 0 = H(0^32)` (abstracted as the
parameter `z0`), `zeros (i+1) = H(zeros i || zeros i)`.  The source stores the
precomputed SHA-256 values for `i ≤ 31` and panics beyond; our uses stay below
`MERKLE_TREE_LEVELS`. -/
def zeros (h2 : Hash → Hash → Hash) (z0 : Hash) : Nat → Hash
  | 0 => z0
  | i + 1 => h2 (zeros h2 z0 i) (zeros h2 z0 i)

/-- Persistent contract storage, as a record.  Cells that may be absent are
`Option`-valued; `Initialized` reads through `unwrap_or(false)`, hence a plain
`Bool`.  The `Nullifier(k)` presence-keys are the list of stored keys. -/
structure ContractState where
  initialized : Bool
  filledSubtrees : Nat → Option Hash
  roots : Nat → Option Hash
  nextIndex : Option Nat
  currentRootIndex : Option Nat
  nullifiers : List Hash

instance : Inhabited ContractState :=
  ⟨{ initialized := false, filledSubtrees := fun _ => none, roots := fun _ => none,
     nextIndex := none, currentRootIndex := none, nullifiers := [] }⟩

/-- Fresh storage before any call: every cell absent. -/
def freshContract : ContractState :=
  { initialized := false, filledSubtrees := fun _ => none, roots := fun _ => none,
    nextIndex := none, currentRootIndex := none, nullifiers := [] }

/-- SanctumContract::initialize. -/
def contractInit (h2 : Hash → Hash → Hash) (z0 : Hash) (s : ContractState) :
    Except SanctumError ContractState :=
  if s.initialized then .error .IllegalContractCall
  else .ok
    { initialized := true
      filledSubtrees := fun i =>
        if i < MERKLE_TREE_LEVELS then some (zeros h2 z0 i) else s.filledSubtrees i
      roots := fun i =>
        if i = 0 then some (zeros h2 z0 (MERKLE_TREE_LEVELS - 1)) else s.roots i
      nextIndex := some 0
      currentRootIndex := some 0
      nullifiers := s.nullifiers }

/-- The ascending loop of SanctumContract::insert.  Mirrors the source
faithfully: in the even branch the contract stores `zeros i` into
`FilledSubtree(i)` (not the running hash), in the odd branch it unwraps the
stored `FilledSubtree(i)` (`none` result = panic of that unwrap). -/
def contractInsertLoop (h2 : Hash → Hash → Hash) (z : Nat → Hash) :
    Nat → Nat → Nat → Hash → (Nat → Option Hash) → Option (Hash × (Nat → Option Hash))
  | 0, _, _, cur, fs => some (cur, fs)
  | fuel + 1, i, idx, cur, fs =>
    if idx % 2 = 0 then
      contractInsertLoop h2 z fuel (i + 1) (idx / 2) (h2 cur (z i))
        (fun j => if j = i then some (z i) else fs j)
    else
      match fs i with
      | none => none
      | some si => contractInsertLoop h2 z fuel (i + 1) (idx / 2) (h2 si cur) fs

/-- SanctumContract::insert.  Returns the pre-call `NextIndex` on success.
The source has no capacity check. -/
def contractInsert (h2 : Hash → Hash → Hash) (z0 : Hash) (s : ContractState)
    (leaf : Hash) : Option (Except SanctumError (ContractState × Nat)) :=
  if !s.initialized then some (.error .ContractUnititialized)
  else
    match s.nextIndex with
    | none => none
    | some nextIndex =>
      match contractInsertLoop h2 (zeros h2 z0) MERKLE_TREE_LEVELS 0 nextIndex
          leaf s.filledSubtrees with
      | none => none
      | some (newRoot, fs) =>
        match s.currentRootIndex with
        | none => none
        | some currentRootIndex =>
          let newRootIndex := (currentRootIndex + 1) % ROOT_HISTORY_SIZE
          some (.ok
            ({ s with
                filledSubtrees := fs
                currentRootIndex := some newRootIndex
                roots := fun i => if i = newRootIndex then some newRoot else s.roots i
                nextIndex := some ((nextIndex + 1) % U32) }, nextIndex))

/-- SanctumContract::record_nullifier.  An error return leaves the storage
untouched (the source mutates only after both checks pass). -/
def record_nullifier (s : ContractState) (nf : Hash) :
    Except SanctumError ContractState :=
  if !s.initialized then .error .ContractUnititialized
  else if s.nullifiers.contains nf then .error .DuplicateNullifier
  else .ok { s with nullifiers := nf :: s.nullifiers }

end Contract

/-! ## Off-chain frontier Merkle tree
(src/userland/src/services/sequencer/frontier_merkle_tree.rs) -/

namespace Frontier

/-- The `zeros` table of the frontier tree: `zeros 0` is
`compute_leaf_hash([0u8; 32])` (abstracted as the parameter `z0`),
`zeros (i+1) = H(zeros i || zeros i)`. -/
def frontierZeros (h2 : Hash → Hash → Hash) (z0 : Hash) : Nat → Hash
  | 0 => z0
  | i + 1 => h2 (frontierZeros h2 z0 i) (frontierZeros h2 z0 i)

/-- FrontierMerkleTreeWithHistory.  The two HashMaps are partial maps from
`u32` indices to digests. -/
structure FrontierState where
  levels : Nat
  rootHistorySize : Nat
  filledSubtrees : Nat → Option Hash
  historicalRoots : Nat → Option Hash
  currentRootIndex : Nat
  nextIndex : Nat

/-- FrontierMerkleTreeWithHistory::new; `none` when one of the two
`assert!`s on `levels` fails. -/
def frontierNew (h2 : Hash → Hash → Hash) (z0 : Hash) (levels rootHistorySize : Nat) :
    Option FrontierState :=
  if levels = 0 ∨ 32 ≤ levels then none
  else some
    { levels := levels
      rootHistorySize := rootHistorySize
      filledSubtrees := fun i =>
        if i < levels then some (frontierZeros h2 z0 i) else none
      historicalRoots := fun i =>
        if i = 0 then some (frontierZeros h2 z0 (levels - 1)) else none
      currentRootIndex := 0
      nextIndex := 0 }

/-- The ascending loop of FrontierMerkleTreeWithHistory::insert.  Unlike the
contract loop, the even branch memoises the running hash into
`filled_subtrees[i]`; the odd branch unwraps the stored entry (`none` =
panic). -/
def frontierInsertLoop (h2 : Hash → Hash → Hash) (z : Nat → Hash) :
    Nat → Nat → Nat → Hash → (Nat → Option Hash) → Option (Hash × (Nat → Option Hash))
  | 0, _, _, cur, fs => some (cur, fs)
  | fuel + 1, i, idx, cur, fs =>
    if idx % 2 = 0 then
      frontierInsertLoop h2 z fuel (i + 1) (idx / 2) (h2 cur (z i))
        (fun j => if j = i then some cur else fs j)
    else
      match fs i with
      | none => none
      | some si => frontierInsertLoop h2 z fuel (i + 1) (idx / 2) (h2 si cur) fs

/-- FrontierMerkleTreeWithHistory::insert.  The leaf is first hashed by
`compute_leaf_hash` (parameter `lH`); `none` covers the `assert!` that the
tree is not full, and any unwrap panic inside the loop. -/
def frontierInsert (h2 : Hash → Hash → Hash) (z0 : Hash) (lH : Hash → Hash)
    (s : FrontierState) (leaf : Hash) : Option FrontierState :=
  if !decide (s.nextIndex < 2 ^ s.levels) then none
  else
    match frontierInsertLoop h2 (frontierZeros h2 z0) s.levels 0 s.nextIndex
        (lH leaf) s.filledSubtrees with
    | none => none
    | some (newRoot, fs) =>
      let newRootIndex := (s.currentRootIndex + 1) % s.rootHistorySize
      some
        { s with
            filledSubtrees := fs
            currentRootIndex := newRootIndex
            historicalRoots := fun i =>
              if i = newRootIndex then some newRoot else s.historicalRoots i
            nextIndex := s.nextIndex + 1 }

/-- The scan loop of FrontierMerkleTreeWithHistory::is_known_root.  The body
unwraps `historical_roots.get(&i)`, so a missing entry panics (`none`).  The
fuel argument only bounds the recursion; `rootHistorySize + 1` steps always
cover a full revolution of the ring. -/
def frontierIsKnownRootGo (map : Nat → Option Hash) (histSize root cri : Nat) :
    Nat → Nat → Option Bool
  | _, 0 => none
  | i, fuel + 1 =>
    match map i with
    | none => none
    | some r =>
      if r = root then some true
      else
        let i2 := (if i = 0 then histSize else i) - 1
        if i2 = cri then some false
        else frontierIsKnownRootGo map histSize root cri i2 fuel

/-- FrontierMerkleTreeWithHistory::is_known_root; `none` = panic. -/
def frontierIsKnownRoot (s : FrontierState) (root : Hash) : Option Bool :=
  frontierIsKnownRootGo s.historicalRoots s.rootHistorySize root
    s.currentRootIndex s.currentRootIndex (s.rootHistorySize + 1)

/-- FrontierMerkleTreeWithHistory::get_latest_root; `none` = unwrap panic. -/
def frontierLatestRoot (s : FrontierState) : Option Hash :=
  s.historicalRoots s.currentRootIndex

end Frontier

/-! ## Verifier service (src/userland/src/services/verifier/main.rs) -/

namespace Verifier

/-- const ROOT_HISTORY_SIZE of the verifier. -/
def ROOT_HISTORY_SIZE : Nat := 30

/-- A root handled by the verifier is the pair of base58-encoded (x, y)
coordinates; we abstract each coordinate as a natural number. -/
abbrev Root2 := Nat × Nat

/-- MerkleRootHistory of the verifier: a partial map from `u32` indices to
roots plus the next write position. -/
structure MerkleRootHistory where
  rootHistorySize : Nat
  historicalRoots : Nat → Option Root2
  nextRootIndex : Nat

/-- MerkleRootHistory::new. -/
def MerkleRootHistory.new (rootHistorySize : Nat) : MerkleRootHistory :=
  { rootHistorySize := rootHistorySize
    historicalRoots := fun _ => none
    nextRootIndex := 0 }

/-- MerkleRootHistory::insert. -/
def MerkleRootHistory.insert (st : MerkleRootHistory) (root : Root2) :
    MerkleRootHistory :=
  { st with
      historicalRoots := fun i =>
        if i = st.nextRootIndex then some root else st.historicalRoots i
      nextRootIndex := (st.nextRootIndex + 1) % st.rootHistorySize }

/-- MerkleRootHistory::get_latest_root.  The source computes
`next_root_index - 1` on `u32`; we model the release-mode wrap-around
(`+ 2^32 - 1` modulo `2^32`).  In a debug build the same expression panics
when `next_root_index = 0`. -/
def MerkleRootHistory.getLatestRoot (st : MerkleRootHistory) : Option Root2 :=
  st.historicalRoots ((st.nextRootIndex + (U32 - 1)) % U32)

/-- The scan loop of MerkleRootHistory::is_known_root.  Unlike the frontier
variant it guards with `contains_key`, returning `false` on a missing entry. -/
def MerkleRootHistory.isKnownRootGo (map : Nat → Option Root2)
    (histSize : Nat) (root : Root2) (startIndex : Nat) : Nat → Nat → Bool
  | _, 0 => false
  | i, fuel + 1 =>
    match map i with
    | none => false
    | some r =>
      if r = root then true
      else
        let i2 := (if i = 0 then histSize else i) - 1
        if i2 = startIndex then false
        else MerkleRootHistory.isKnownRootGo map histSize root startIndex i2 fuel

/-- MerkleRootHistory::is_known_root, with the `u32` wrap-around of
`next_root_index - 1` made explicit. -/
def MerkleRootHistory.is_known_root (st : MerkleRootHistory) (root : Root2) : Bool :=
  let startIndex := (st.nextRootIndex + (U32 - 1)) % U32
  MerkleRootHistory.isKnownRootGo st.historicalRoots st.rootHistorySize root
    startIndex startIndex (st.rootHistorySize + 1)

/-- update_merkle_root of the verifier.  The Groth16 verification of the
Merkle-update proof is an external-library call abstracted as `proofOk`;
`oldRoot` and `newRoot` are the (OLD_ROOT_X, OLD_ROOT_Y) and
(NEW_ROOT_X, NEW_ROOT_Y) public inputs of that proof.  A failed `assert!`
is `none`. -/
def update_merkle_root (st : MerkleRootHistory) (proofOk : Bool)
    (oldRoot newRoot : Root2) : Option MerkleRootHistory :=
  match st.getLatestRoot with
  | some latest =>
    if latest = oldRoot then
      if proofOk then some (st.insert newRoot) else none
    else none
  | none =>
    if proofOk then some (st.insert newRoot) else none

end Verifier

/-! ## Sequencer service (src/userland/src/services/sequencer/main.rs) -/

namespace Sequencer

/-- const MERKLE_TREE_LEVELS of the sequencer deployment. -/
def MERKLE_TREE_LEVELS : Nat := 8

/-- Sequencer state: the full vector database of records (G1 commitments,
abstracted as naturals) and the number of coins inserted so far.  The
verifying and proving keys are opaque setup artifacts and carry no state. -/
structure SeqAppState where
  db : List Nat
  numCoins : Nat

/-- One layer of the full Merkle tree: hash adjacent pairs. -/
def levelUp (h2 : Hash → Hash → Hash) : List Hash → List Hash
  | a :: b :: rest => h2 a b :: levelUp h2 rest
  | l => l

/-- Root of the full tree over `levels` layers of hashed leaves. -/
def rootOfLevels (h2 : Hash → Hash → Hash) : Nat → List Hash → Hash
  | 0, l => l.headD 0
  | n + 1, l => rootOfLevels h2 n (levelUp h2 l)

/-- JZVectorDB::commitment: the Merkle root of the leaf-hashed records. -/
def dbCommitment (h2 : Hash → Hash → Hash) (lH : Nat → Hash) (levels : Nat)
    (db : List Nat) : Hash :=
  rootOfLevels h2 levels (db.map lH)

/-- The sibling nodes along the authentication path of leaf `k`. -/
def siblingPath (h2 : Hash → Hash → Hash) : Nat → List Hash → Nat → List Hash
  | 0, _, _ => []
  | n + 1, nodes, k => nodes.getD (k ^^^ 1) 0 :: siblingPath h2 n (levelUp h2 nodes) (k / 2)

/-- JZVectorDB::proof(k): the authentication path of leaf `k`. -/
def dbProof (h2 : Hash → Hash → Hash) (lH : Nat → Hash) (levels : Nat)
    (db : List Nat) (k : Nat) : List Hash :=
  siblingPath h2 levels (db.map lH) k

/-- A JZVectorCommitmentOpeningProof: current root, opened record, and its
authentication path. -/
structure SeqOpening where
  root : Hash
  record : Nat
  path : List Hash
deriving DecidableEq, Repr

/-- assemble_merkle_proof of the sequencer. -/
def assembleMerkleProof (h2 : Hash → Hash → Hash) (lH : Nat → Hash) (levels : Nat)
    (s : SeqAppState) (index : Nat) : SeqOpening :=
  { root := dbCommitment h2 lH levels s.db
    record := s.db.getD index 0
    path := dbProof h2 lH levels s.db index }

/-- initialize_state of the sequencer: the database holds `2^levels` copies of
the dummy-UTXO commitment (parameter `dummyCm`) and no coin has been added. -/
def seqStart (dummyCm : Nat) : SeqAppState :=
  { db := List.replicate (2 ^ MERKLE_TREE_LEVELS) dummyCm, numCoins := 0 }

/-- add_coin_to_state.  Captures the opening of slot `num_coins` before the
update, writes the commitment, bumps `num_coins`, captures the new opening,
and hands both openings and the leaf index to the Merkle-update prover
(the Groth16 proving call is external; we return its witness material).
`none` covers the fatal out-of-range `db.update`/`db.proof`. -/
def add_coin_to_state (h2 : Hash → Hash → Hash) (lH : Nat → Hash) (levels : Nat)
    (s : SeqAppState) (com : Nat) :
    Option (SeqAppState × SeqOpening × SeqOpening × Nat) :=
  let leafIndex := s.numCoins
  if leafIndex < s.db.length then
    let oldProof := assembleMerkleProof h2 lH levels s leafIndex
    let s2 : SeqAppState := { db := s.db.set leafIndex com, numCoins := s.numCoins + 1 }
    let newProof := assembleMerkleProof h2 lH levels s2 leafIndex
    some (s2, oldProof, newProof, leafIndex)
  else none

end Sequencer

/-! ## Circuits (src/userland/src/circuits/merkle_update_circuit.rs and
payment_circuit.rs)

We embed each circuit as the relation its `generate_constraints` imposes on
the assignment: a conjunction, in source order, of the constraints that are
actually enforced.  External-library gadgets (the Pedersen Merkle
verification, the PRF, the KZG record commitment, field-element byte
serialization) enter as parameters. -/

namespace Circuits

/-- Byte-wise equality as enforced by a zip/enumerate loop of
`enforce_equal`s: the overlapping prefix of the two byte vectors agrees. -/
def zipEq (a b : List Nat) : Prop := ∀ p ∈ a.zip b, p.1 = p.2

/-- The PathVar fields compared by enforce_path_equality. -/
structure MUPathW where
  path : List Bool
  authPath : List Nat
  leafSibling : Nat
  leafIsRightChild : Bool
deriving DecidableEq, Repr

/-- A JZVectorCommitmentOpeningProofVar: the root point, the record point,
the serialized leaf bytes and the path variables. -/
structure MUOpeningW where
  rootX : Nat
  rootY : Nat
  recordX : Nat
  recordY : Nat
  leafBytes : List Nat
  pathW : MUPathW
deriving DecidableEq, Repr

/-- The leaf position encoded by a path: the leaf-level bit followed by the
auth-path bits, least significant first. -/
def pathLeafIndex (p : MUPathW) : Nat :=
  (p.leafIsRightChild :: p.path).foldr (fun b acc => 2 * acc + (if b then 1 else 0)) 0

/-- Public inputs of the MerkleUpdate circuit, in the GrothPublicInput
order. -/
structure MUPublicW where
  leafIndex : Nat
  leafValueX : Nat
  leafValueY : Nat
  oldRootX : Nat
  oldRootY : Nat
  newRootX : Nat
  newRootY : Nat
deriving DecidableEq, Repr

/-- Witness of the MerkleUpdate circuit: the two openings plus the prover
leaf index (which the circuit receives but only uses to fill the public
input value). -/
structure MUWitnessW where
  leafIndex : Nat
  oldProof : MUOpeningW
  newProof : MUOpeningW
deriving DecidableEq, Repr

/-- The relation enforced by MerkleUpdateCircuit::generate_constraints on an
assignment: the two Merkle-verification gadgets (abstracted as `V`), path
equality, byte-wise binding of the four root public inputs, and byte-wise
binding of the leaf_value_x public input to the new opening leaf bytes.
The leaf_index and leaf_value_y input variables are allocated but never
constrained, exactly as in the source. -/
def merkleUpdateRel (V : MUOpeningW → Prop) (fieldBytes : Nat → List Nat)
    (pub : MUPublicW) (w : MUWitnessW) : Prop :=
  V w.oldProof ∧
  V w.newProof ∧
  w.oldProof.pathW = w.newProof.pathW ∧
  fieldBytes pub.oldRootX = fieldBytes w.oldProof.rootX ∧
  fieldBytes pub.oldRootY = fieldBytes w.oldProof.rootY ∧
  fieldBytes pub.newRootX = fieldBytes w.newProof.rootX ∧
  fieldBytes pub.newRootY = fieldBytes w.newProof.rootY ∧
  zipEq (fieldBytes pub.leafValueX) w.newProof.leafBytes

/-- Recompute the root digest from the leaf digest and the path, as the
external Merkle gadget does. -/
def recomputeRootDigest (h2 : Hash → Hash → Hash) (leafDigest : Nat)
    (p : MUPathW) : Nat :=
  let l0 := if p.leafIsRightChild then h2 p.leafSibling leafDigest
            else h2 leafDigest p.leafSibling
  (p.path.zip p.authPath).foldl
    (fun acc q => if q.1 then h2 q.2 acc else h2 acc q.2) l0

/-- A concrete instantiation of the external Merkle-verification gadget used
for counterexamples: the root point encodes the digest recomputed from the
leaf bytes up the path. -/
def concreteMTCheck (h2 : Hash → Hash → Hash) (lH : List Nat → Nat)
    (o : MUOpeningW) : Prop :=
  o.rootX = recomputeRootDigest h2 (lH o.leafBytes) o.pathW ∧
  o.rootY = o.rootX + 1

/-- The five byte-fields of a JZRecord, indexed by the ENTROPY, OWNER,
ASSET_ID, AMOUNT, RHO constants. -/
structure JZRecordW where
  fields : Fin 5 → List Nat

/-- Field index constants from src/userland/src/circuits/lib.rs. -/
def ENTROPY : Fin 5 := 0
def OWNER : Fin 5 := 1
def ASSET_ID : Fin 5 := 2
def AMOUNT : Fin 5 := 3
def RHO : Fin 5 := 4

/-- A JZPRFInstanceVar: byte-level key, input and output variables. -/
structure PRFInstanceW where
  key : List Nat
  input : List Nat
  output : List Nat

/-- Public inputs of the Payment circuit, in the GrothPublicInput order. -/
structure PaymentPublicW where
  rootX : Nat
  rootY : Nat
  nullifier : Nat
  commitmentX : Nat
  commitmentY : Nat

/-- Witness of the Payment circuit: the two records, the two commitment
points computed by the KZG gadget, the two PRF instances, and the membership
opening of the spent coin. -/
structure PaymentWitnessW where
  inputUtxo : JZRecordW
  outputUtxo : JZRecordW
  inCommit : Nat × Nat
  outCommit : Nat × Nat
  nullifierPRF : PRFInstanceW
  ownershipPRF : PRFInstanceW
  openingProof : MUOpeningW

/-- The relation enforced by PaymentCircuit::generate_constraints on an
assignment, with the external gadgets as parameters: `commitEval` is the KZG
record-commitment gadget, `prfEval` the PRF gadget, `mtCheck` the Merkle
verification gadget, `fieldBytes` field-element serialization.  The numbered
conjuncts follow the binding section of the source. -/
def paymentRel (commitEval : (Fin 5 → List Nat) → Nat × Nat)
    (prfEval : List Nat → List Nat → List Nat)
    (fieldBytes : Nat → List Nat)
    (mtCheck : MUOpeningW → Prop)
    (pub : PaymentPublicW) (w : PaymentWitnessW) : Prop :=
  -- commitment gadgets on the two records
  w.inCommit = commitEval w.inputUtxo.fields ∧
  w.outCommit = commitEval w.outputUtxo.fields ∧
  -- PRF gadgets compute their outputs
  w.nullifierPRF.output = prfEval w.nullifierPRF.input w.nullifierPRF.key ∧
  w.ownershipPRF.output = prfEval w.ownershipPRF.input w.ownershipPRF.key ∧
  -- Merkle membership gadget
  mtCheck w.openingProof ∧
  -- 1. both PRFs use the same secret key
  zipEq w.ownershipPRF.key w.nullifierPRF.key ∧
  -- 2. the nullifier PRF uses rho as input
  zipEq w.nullifierPRF.input (w.inputUtxo.fields RHO) ∧
  -- 3. the input coin owner equals the ownership PRF output
  zipEq (w.inputUtxo.fields OWNER) w.ownershipPRF.output ∧
  -- 4. the public nullifier equals the nullifier PRF output
  zipEq w.nullifierPRF.output (fieldBytes pub.nullifier) ∧
  -- 5. the public output commitment equals the computed commitment
  zipEq (fieldBytes w.outCommit.1) (fieldBytes pub.commitmentX) ∧
  zipEq (fieldBytes w.outCommit.2) (fieldBytes pub.commitmentY) ∧
  -- 6. the Merkle leaf equals the input commitment bytes
  zipEq (fieldBytes w.inCommit.1) w.openingProof.leafBytes ∧
  -- 7. the opening root equals the public root
  w.openingProof.rootX = pub.rootX ∧
  w.openingProof.rootY = pub.rootY ∧
  -- 8. conservation of asset value
  zipEq (w.inputUtxo.fields AMOUNT) (w.outputUtxo.fields AMOUNT) ∧
  zipEq (w.inputUtxo.fields ASSET_ID) (w.outputUtxo.fields ASSET_ID)

end Circuits

namespace Contract

/-- Error type of the `payment` contract operation.  Modelled from the spec:
`payment` itself is absent from the contract source (only the contract own
test calls `client.payment`); the spec contract error-code table assigns
`ContractUninitialized=1`, `DuplicateNullifier=3`, `UnknownRoot=4`. -/
inductive PaymentError where
  | contractUninitialized
  | duplicateNullifier
  | unknownRoot
deriving DecidableEq, Repr

/-- Numeric error codes of the modelled payment operation, from the spec
error-code table. -/
def PaymentError.code : PaymentError → Nat
  | .contractUninitialized => 1
  | .duplicateNullifier => 3
  | .unknownRoot => 4

/-- Membership of a root in the stored root-history ring `R[0..H)`. -/
def contractKnownRoot (s : ContractState) (r : Hash) : Bool :=
  (List.range ROOT_HISTORY_SIZE).any fun i => decide (s.roots i = some r)

/-- Modelled from the spec: `payment(root, cm_out, nf)` is missing from the
contract source (its test calls `client.payment`, and the spec specifies it
in §4.11): preconditions `initialized`, `root ∈ R`, `nf ∉ N`; on success
insert `cm_out` into the frontier MT and record `nf`, reusing the contract
own `insert` and `record_nullifier`.  A precondition failure returns the
corresponding error and leaves the state unchanged. -/
def contractPayment (h2 : Hash → Hash → Hash) (z0 : Hash) (s : ContractState)
    (root cmOut nf : Hash) : Option (Except PaymentError ContractState) :=
  if !s.initialized then some (.error .contractUninitialized)
  else if !contractKnownRoot s root then some (.error .unknownRoot)
  else if s.nullifiers.contains nf then some (.error .duplicateNullifier)
  else
    match contractInsert h2 z0 s cmOut with
    | some (.ok (s2, _)) =>
      match record_nullifier s2 nf with
      | .ok s3 => some (.ok s3)
      | .error _ => none
    | _ => none

end Contract

/-! ## Concrete stand-ins for the external primitives

Closed evaluations (witnesses, counterexamples, failing inputs) instantiate
the abstract hash parameters with small executable functions. -/

namespace Concrete

open Contract

/-- Stand-in two-to-one compression hash. -/
def h2c (a b : Sanctum.Hash) : Sanctum.Hash := 2 * a + 3 * b + 1

/-- Stand-in leaf hash (compute_leaf_hash). -/
def lHc (x : Sanctum.Hash) : Sanctum.Hash := x + 100

/-- Stand-in for `zeros 0 = H(0^32)`. -/
def z0c : Sanctum.Hash := 5

/-- The contract storage right after a successful `initialize` call, under
the concrete stand-in hash. -/
def cInitState : ContractState :=
  { initialized := true
    filledSubtrees := fun i =>
      if i < MERKLE_TREE_LEVELS then some (zeros h2c z0c i) else none
    roots := fun i =>
      if i = 0 then some (zeros h2c z0c (MERKLE_TREE_LEVELS - 1)) else none
    nextIndex := some 0
    currentRootIndex := some 0
    nullifiers := [] }

end Concrete

/-! ## Theorems -/

namespace Contract

/-- Folding a sequence of record_nullifier calls; an erroring call leaves the
state as it was. -/
def runNullifierSeq (s : ContractState) (nfs : List Hash) : ContractState :=
  nfs.foldl
    (fun st nf =>
      match record_nullifier st nf with
      | .ok st2 => st2
      | .error _ => st) s

lemma record_nullifier_step_nodup (s : ContractState) (nf : Hash)
    (h : s.nullifiers.Nodup) :
    (match record_nullifier s nf with
      | .ok st2 => st2
      | .error _ => s).nullifiers.Nodup := by
  unfold record_nullifier
  by_cases hinit : s.initialized
  · by_cases hmem : nf ∈ s.nullifiers
    · simp [hinit, hmem, h]
    · simp only [hinit, Bool.not_true, Bool.false_eq_true, if_false, if_true]
      have hc : s.nullifiers.contains nf = false := by simpa using hmem
      simp only [hc, Bool.false_eq_true, if_false]
      exact List.nodup_cons.mpr ⟨hmem, h⟩
  · simp [hinit, h]

lemma runNullifierSeq_nodup (nfs : List Hash) :
    ∀ s : ContractState, s.nullifiers.Nodup → (runNullifierSeq s nfs).nullifiers.Nodup := by
  induction nfs with
  | nil => intro s h; exact h
  | cons nf rest ih =>
    intro s h
    have hstep := record_nullifier_step_nodup s nf h
    simpa [runNullifierSeq, List.foldl_cons] using ih _ hstep

/-- Claim C5: on an initialized contract state, `record_nullifier nf` errors with
DuplicateNullifier (touching nothing) when `nf` is already stored, records
`nf` otherwise, rejects an identical resubmission after a successful call,
and any sequence of calls keeps the stored nullifiers duplicate-free. -/
theorem record_nullifier_once (s : ContractState) (nf : Hash)
    (hinit : s.initialized = true) :
    (s.nullifiers.contains nf = true →
      record_nullifier s nf = .error .DuplicateNullifier) ∧
    (s.nullifiers.contains nf = false →
      record_nullifier s nf = .ok { s with nullifiers := nf :: s.nullifiers }) ∧
    (∀ s2, record_nullifier s nf = .ok s2 →
      record_nullifier s2 nf = .error .DuplicateNullifier) ∧
    (∀ nfs, s.nullifiers.Nodup → (runNullifierSeq s nfs).nullifiers.Nodup) := by
  refine ⟨?_, ?_, ?_, fun nfs h => runNullifierSeq_nodup nfs s h⟩
  · intro hmem
    have hm : nf ∈ s.nullifiers := by simpa using hmem
    simp [record_nullifier, hinit, hm]
  · intro hmem
    have hm : nf ∉ s.nullifiers := by simpa using hmem
    simp [record_nullifier, hinit, hm]
  · intro s2 hok
    unfold record_nullifier at hok
    by_cases hmem : nf ∈ s.nullifiers
    · simp [hinit, hmem] at hok
    · have hc : s.nullifiers.contains nf = false := by simpa using hmem
      simp only [hinit, hc, Bool.not_true, Bool.false_eq_true, if_false, if_true] at hok
      cases hok
      simp [record_nullifier, hinit]

/-- Witness for record_nullifier_once at a concrete initialized state. -/
theorem record_nullifier_once_witness :
    record_nullifier Concrete.cInitState 7 =
      .ok { Concrete.cInitState with nullifiers := [7] } :=
  (record_nullifier_once Concrete.cInitState 7 rfl).2.1 rfl

/-- Claim C2: on an initialized contract state, a payment whose declared root is
not in the stored root history is rejected with UnknownRoot, whose numeric
error code is 4, and (the error return carrying no state) the contract state
is unchanged. -/
theorem payment_unknown_root (h2 : Hash → Hash → Hash) (z0 : Hash)
    (s : ContractState) (root cmOut nf : Hash)
    (hinit : s.initialized = true)
    (hroot : contractKnownRoot s root = false) :
    contractPayment h2 z0 s root cmOut nf = some (.error .unknownRoot) ∧
    PaymentError.code .unknownRoot = 4 := by
  constructor
  · simp [contractPayment, hinit, hroot]
  · rfl

/-- Witness for payment_unknown_root: the freshly initialized contract
rejects a payment against the root 999, which is not in its history. -/
theorem payment_unknown_root_witness :
    contractPayment Concrete.h2c Concrete.z0c Concrete.cInitState 999 0 0 =
      some (.error .unknownRoot) ∧
    PaymentError.code .unknownRoot = 4 :=
  payment_unknown_root Concrete.h2c Concrete.z0c Concrete.cInitState 999 0 0
    rfl (by decide)

/-- Storage well-formedness guaranteed by `initialize` and preserved by
`insert`: the contract is initialized, all `MERKLE_TREE_LEVELS` filled-subtree
cells exist, and `CurrentRootIndex` exists. -/
def ContractWF (s : ContractState) : Prop :=
  s.initialized = true ∧
  (∀ i, i < MERKLE_TREE_LEVELS → (s.filledSubtrees i).isSome = true) ∧
  (s.currentRootIndex).isSome = true

lemma contractInsertLoop_ok (h2 : Hash → Hash → Hash) (z : Nat → Hash) :
    ∀ (fuel i idx : Nat) (cur : Hash) (fs : Nat → Option Hash),
      (∀ j, i ≤ j → j < i + fuel → (fs j).isSome = true) →
      ∃ out fsOut,
        contractInsertLoop h2 z fuel i idx cur fs = some (out, fsOut) ∧
        ∀ j, (fs j).isSome = true → (fsOut j).isSome = true := by
  intro fuel
  induction fuel with
  | zero =>
    intro i idx cur fs _
    exact ⟨cur, fs, rfl, fun j hj => hj⟩
  | succ fuel ih =>
    intro i idx cur fs hfs
    by_cases hpar : idx % 2 = 0
    · have hrec := ih (i + 1) (idx / 2) (h2 cur (z i))
        (fun j => if j = i then some (z i) else fs j) ?_
      · obtain ⟨out, fsOut, heq, hmono⟩ := hrec
        refine ⟨out, fsOut, ?_, ?_⟩
        · simpa [contractInsertLoop, hpar] using heq
        · intro j hj
          apply hmono
          by_cases hji : j = i <;> simp [hji, hj]
      · intro j h1 h2j
        have hji : j ≠ i := by omega
        simp only [hji, if_false]
        exact hfs j (by omega) (by omega)
    · have hsome : (fs i).isSome = true := hfs i (le_refl i) (by omega)
      obtain ⟨si, hsi⟩ := Option.isSome_iff_exists.mp hsome
      have hrec := ih (i + 1) (idx / 2) (h2 si cur) fs ?_
      · obtain ⟨out, fsOut, heq, hmono⟩ := hrec
        refine ⟨out, fsOut, ?_, hmono⟩
        simpa [contractInsertLoop, hpar, hsi] using heq
      · intro j h1 h2j
        exact hfs j (by omega) (by omega)

lemma contractInsert_ok (h2 : Hash → Hash → Hash) (z0 : Hash)
    (s : ContractState) (leaf : Hash) (n : Nat)
    (hwf : ContractWF s) (hn : s.nextIndex = some n) :
    ∃ s2, contractInsert h2 z0 s leaf = some (.ok (s2, n)) ∧
      ContractWF s2 ∧ s2.nextIndex = some ((n + 1) % U32) := by
  obtain ⟨hinit, hfs, hcri⟩ := hwf
  obtain ⟨cri, hcri2⟩ := Option.isSome_iff_exists.mp hcri
  obtain ⟨out, fsOut, hloop, hmono⟩ :=
    contractInsertLoop_ok h2 (zeros h2 z0) MERKLE_TREE_LEVELS 0 n leaf
      s.filledSubtrees (fun j _ h2j => hfs j (by simpa using h2j))
  refine ⟨{ s with
      filledSubtrees := fsOut
      roots := fun i => if i = (cri + 1) % ROOT_HISTORY_SIZE then some out else s.roots i
      nextIndex := some ((n + 1) % U32)
      currentRootIndex := some ((cri + 1) % ROOT_HISTORY_SIZE) }, ?_, ?_, rfl⟩
  · simp [contractInsert, hinit, hn, hloop, hcri2]
  · exact ⟨hinit, fun i hi => hmono i (hfs i hi), rfl⟩

/-- Successive contract inserts, collecting the returned indices; the
sequence stops at the first failing call. -/
def contractInsertSeq (h2 : Hash → Hash → Hash) (z0 : Hash) :
    ContractState → List Hash → ContractState × List Nat
  | s, [] => (s, [])
  | s, leaf :: rest =>
    match contractInsert h2 z0 s leaf with
    | some (.ok (s2, r)) =>
      let p := contractInsertSeq h2 z0 s2 rest
      (p.1, r :: p.2)
    | _ => (s, [])

lemma contractInsertSeq_cons (h2 : Hash → Hash → Hash) (z0 : Hash)
    (s s2 : ContractState) (r : Nat) (leaf : Hash) (rest : List Hash)
    (heq : contractInsert h2 z0 s leaf = some (.ok (s2, r))) :
    contractInsertSeq h2 z0 s (leaf :: rest) =
      ((contractInsertSeq h2 z0 s2 rest).1, r :: (contractInsertSeq h2 z0 s2 rest).2) := by
  conv_lhs => rw [contractInsertSeq]
  rw [heq]

lemma contractInsertSeq_returns (h2 : Hash → Hash → Hash) (z0 : Hash) :
    ∀ (leaves : List Hash) (s : ContractState) (n : Nat),
      ContractWF s → s.nextIndex = some n → n + leaves.length ≤ U32 →
      (contractInsertSeq h2 z0 s leaves).2 = List.range' n leaves.length := by
  intro leaves
  induction leaves with
  | nil => intro s n _ _ _; rfl
  | cons leaf rest ih =>
    intro s n hwf hn hcap
    obtain ⟨s2, heq, hwf2, hn2⟩ := contractInsert_ok h2 z0 s leaf n hwf hn
    rw [contractInsertSeq_cons h2 z0 s s2 n leaf rest heq]
    cases rest with
    | nil => simp [contractInsertSeq, List.range']
    | cons b bs =>
      have hlt : n + 1 < U32 := by
        have := hcap
        simp [List.length_cons] at this
        omega
      have hmod : (n + 1) % U32 = n + 1 := Nat.mod_eq_of_lt hlt
      rw [hmod] at hn2
      have htail := ih s2 (n + 1) hwf2 hn2 (by
        have := hcap
        simp [List.length_cons] at this ⊢
        omega)
      simp [htail, List.range']

/-- Claim C10: a successful `insert` on an initialized contract returns the
`NextIndex` value read at the start of the call and stores back its
successor; consequently, from a well-formed state with `NextIndex = n`, a
run of successful inserts returns the consecutive indices n, n+1, n+2, …. -/
theorem contract_insert_sequential_indices (h2 : Hash → Hash → Hash) (z0 : Hash) :
    (∀ (s : ContractState) (leaf : Hash) (s2 : ContractState) (r : Nat),
      contractInsert h2 z0 s leaf = some (.ok (s2, r)) →
      s.nextIndex = some r ∧ s2.nextIndex = some ((r + 1) % U32)) ∧
    (∀ (s : ContractState) (leaves : List Hash) (n : Nat),
      ContractWF s → s.nextIndex = some n → n + leaves.length ≤ U32 →
      (contractInsertSeq h2 z0 s leaves).2 = List.range' n leaves.length) := by
  constructor
  · intro s leaf s2 r h
    by_cases hinit : s.initialized
    · cases hn : s.nextIndex with
      | none => simp [contractInsert, hinit, hn] at h
      | some n =>
        cases hloop : contractInsertLoop h2 (zeros h2 z0) MERKLE_TREE_LEVELS 0 n
            leaf s.filledSubtrees with
        | none => simp [contractInsert, hinit, hn, hloop] at h
        | some p =>
          obtain ⟨out, fsOut⟩ := p
          cases hcri : s.currentRootIndex with
          | none => simp [contractInsert, hinit, hn, hloop, hcri] at h
          | some cri =>
            simp only [contractInsert, hinit, Bool.not_true, Bool.false_eq_true,
              if_false, hn, hloop, hcri, Option.some.injEq, Except.ok.injEq,
              Prod.mk.injEq] at h
            obtain ⟨hs2, hr⟩ := h
            subst hr
            subst hs2
            exact ⟨rfl, rfl⟩
    · simp [contractInsert, hinit] at h
  · intro s leaves n hwf hn hcap
    exact contractInsertSeq_returns h2 z0 leaves s n hwf hn hcap

/-- Witness for contract_insert_sequential_indices: three inserts on the
freshly initialized contract return the indices 0, 1, 2. -/
theorem contract_insert_sequential_indices_witness :
    (contractInsertSeq Concrete.h2c Concrete.z0c Concrete.cInitState [11, 12, 13]).2 =
      List.range' 0 3 :=
  (contract_insert_sequential_indices Concrete.h2c Concrete.z0c).2
    Concrete.cInitState [11, 12, 13] 0
    ⟨rfl, fun i hi => by simp [Concrete.cInitState, hi], rfl⟩ rfl (by decide)

end Contract

namespace Concrete

open Contract Frontier Verifier

/-- Extract the post-state of a successful contract insert. -/
def okState : Option (Except SanctumError (ContractState × Nat)) → Option ContractState
  | some (.ok (s, _)) => some s
  | _ => none

/-- Contract state after inserting leaf 7 into the fresh contract. -/
def cS1? : Option ContractState := okState (contractInsert h2c z0c cInitState 7)

/-- Contract state after further inserting leaf 9. -/
def cS2? : Option ContractState :=
  cS1?.bind fun s => okState (contractInsert h2c z0c s 9)

/-- The filled-subtree table of the freshly initialized contract, as the
spec loop would act on it. -/
def specFs0 : Nat → Option Hash :=
  fun i => if i < Contract.MERKLE_TREE_LEVELS then some (zeros h2c z0c i) else none

/-- The root after inserting 7 then 9 with the spec ascending loop (the one
that memoises the running hash, i.e. the frontier tree loop) on the
contract parameters. -/
def specRun2 : Option Hash :=
  (frontierInsertLoop h2c (zeros h2c z0c) Contract.MERKLE_TREE_LEVELS 0 0 7 specFs0).bind
    fun p =>
      (frontierInsertLoop h2c (zeros h2c z0c) Contract.MERKLE_TREE_LEVELS 0 1 9 p.2).map
        Prod.fst

/-- A fresh frontier tree with the sequencer parameters (levels 8,
history 30). -/
def fFresh8 : FrontierState :=
  { levels := 8
    rootHistorySize := 30
    filledSubtrees := fun i => if i < 8 then some (frontierZeros h2c z0c i) else none
    historicalRoots := fun i => if i = 0 then some (frontierZeros h2c z0c 7) else none
    currentRootIndex := 0
    nextIndex := 0 }

/-- Frontier state after inserting leaf 7 into the fresh tree. -/
def fS1? : Option FrontierState := frontierInsert h2c z0c lHc fFresh8 7

/-- A full frontier tree: all `2^8` leaves inserted. -/
def fFull8 : FrontierState := { fFresh8 with nextIndex := 256 }

/-- The contract after `2^15` inserts have filled the tree (reached by
repeated `insert` calls; only `NextIndex` matters for the capacity check the
source does not have). -/
def cFullState : ContractState := { cInitState with nextIndex := some 32768 }

/-- The verifier root history after exactly 30 accepted updates, with
root (i, i) recorded by update i; `next_root_index` has wrapped to 0. -/
def vState30 : MerkleRootHistory :=
  (List.range 30).foldl (fun st p => st.insert (p, p)) (MerkleRootHistory.new 30)

end Concrete

namespace Contract

/-- Claim C1, failing input: the contract insert writes `zeros i` (a no-op) into
`FilledSubtree(i)` instead of the running hash, so the first inserted leaf is
forgotten and the root stored by the second insert differs from the root of
the spec ascending loop (which the off-chain frontier tree implements). -/
theorem contract_insert_forgets_running_hash :
    (Concrete.cS1?.map fun s => s.filledSubtrees 0) = some (some Concrete.z0c) ∧
    Concrete.z0c ≠ 7 ∧
    ((Concrete.fS1?).map fun s => s.filledSubtrees 0) =
      some (some (Concrete.lHc 7)) ∧
    (Concrete.cS2?.bind fun s => s.roots 2) ≠ Concrete.specRun2 ∧
    (Concrete.cS2?.bind fun s => s.roots 2).isSome = true ∧
    Concrete.specRun2.isSome = true := by
  refine ⟨rfl, by decide, rfl, by decide, rfl, rfl⟩

/-- Claim C9, failing input: with `NextIndex = 2^15` (tree full) the contract
insert silently succeeds, returns index `2^15` and advances `NextIndex`,
while the off-chain frontier tree insert on a full tree is fatal. -/
theorem insert_full_tree_not_fatal_on_contract :
    (Concrete.okState
        (contractInsert Concrete.h2c Concrete.z0c Concrete.cFullState 7)).map
      (fun s => s.nextIndex) = some (some 32769) ∧
    (contractInsert Concrete.h2c Concrete.z0c Concrete.cFullState 7).map
      (fun e => e.map Prod.snd) = some (.ok 32768) ∧
    Frontier.frontierInsert Concrete.h2c Concrete.z0c Concrete.lHc
      Concrete.fFull8 7 = none := by
  refine ⟨rfl, rfl, rfl⟩

end Contract

namespace Frontier

/-- Claim C4, failing input: on a fresh frontier tree (one stored root) the
is-known-root scan panics on the unwrap of a missing ring entry when asked
about a root that is not stored, instead of returning false; and the
verifier variant, after exactly 30 inserts (next_root_index wrapped to 0),
reports even a stored root as unknown. -/
theorem is_known_root_fails_on_sparse_history :
    frontierNew Concrete.h2c Concrete.z0c 8 30 = some Concrete.fFresh8 ∧
    Concrete.fFresh8.historicalRoots 0 =
      some (frontierZeros Concrete.h2c Concrete.z0c 7) ∧
    frontierZeros Concrete.h2c Concrete.z0c 7 ≠ 42 ∧
    frontierIsKnownRoot Concrete.fFresh8 42 = none ∧
    Concrete.vState30.historicalRoots 0 = some (0, 0) ∧
    Concrete.vState30.is_known_root (0, 0) = false := by
  refine ⟨rfl, rfl, by decide, by decide, by decide, by decide⟩

end Frontier

namespace Verifier

/-- Claim C3, failing input: after exactly 30 accepted updates the verifier
ratchet accepts a Merkle-update proof whose declared old root matches none
of the 30 stored roots, because `get_latest_root` reads the wrapped index
`next_root_index - 1 = 2^32 - 1`, which is vacant. -/
theorem ratchet_accepts_foreign_root_after_wrap :
    Concrete.vState30.nextRootIndex = 0 ∧
    ((List.range 30).all fun i =>
      (Concrete.vState30.historicalRoots i).isSome) = true ∧
    ((List.range 30).all fun i =>
      decide (Concrete.vState30.historicalRoots i ≠ some (999, 999))) = true ∧
    (update_merkle_root Concrete.vState30 true (999, 999) (888, 888)).isSome
      = true := by
  refine ⟨by decide, by decide, by decide, by decide⟩

end Verifier

namespace Sequencer

/-- All database slots at or beyond `numCoins` still hold the empty-slot
value (the dummy-UTXO commitment written by initialize_state); this is the
spec invariant that slot `n` is empty.  It holds at start-up and is
preserved by add_coin_to_state. -/
def slotsEmptyBeyond (dummyCm : Nat) (s : SeqAppState) : Prop :=
  ∀ i, s.numCoins ≤ i → i < s.db.length → s.db.getD i 0 = dummyCm

/-- Claim C8: add_coin_to_state picks the leaf index `k = num_coins`, captures the
old opening from the database before `update(k, cm)` and the new one after,
increments `num_coins` by exactly one, and — on any state whose unused slots
still hold the empty-slot value — the captured old opening leaf is that
empty-slot value; the invariant holds at initialize_state and is
preserved. -/
theorem add_coin_spec (h2 : Hash → Hash → Hash) (lH : Nat → Hash)
    (levels : Nat) (dummyCm : Nat) (s : SeqAppState) (com : Nat)
    (s2 : SeqAppState) (oldP newP : SeqOpening) (k : Nat)
    (hcall : add_coin_to_state h2 lH levels s com = some (s2, oldP, newP, k)) :
    k = s.numCoins ∧
    oldP = assembleMerkleProof h2 lH levels s k ∧
    s2.db = s.db.set k com ∧
    s2.numCoins = s.numCoins + 1 ∧
    newP = assembleMerkleProof h2 lH levels s2 k ∧
    oldP.record = s.db.getD k 0 ∧
    newP.record = com ∧
    (slotsEmptyBeyond dummyCm s → oldP.record = dummyCm) ∧
    (slotsEmptyBeyond dummyCm s → slotsEmptyBeyond dummyCm s2) ∧
    slotsEmptyBeyond dummyCm (seqStart dummyCm) := by
  by_cases hk : s.numCoins < s.db.length
  · simp only [add_coin_to_state, hk, if_true, Option.some.injEq, Prod.mk.injEq] at hcall
    obtain ⟨hs2, holdP, hnewP, hkk⟩ := hcall
    subst hs2
    subst holdP
    subst hnewP
    subst hkk
    refine ⟨rfl, rfl, rfl, rfl, rfl, rfl, ?_, ?_, ?_, ?_⟩
    · show (s.db.set s.numCoins com).getD s.numCoins 0 = com
      rw [List.getD_eq_getElem _ _ (by simpa using hk)]
      simp [List.getElem_set]
    · intro hempty
      exact hempty s.numCoins (le_refl _) hk
    · intro hempty i hge hlt
      have hge2 : s.numCoins + 1 ≤ i := hge
      have hlt1 : i < (s.db.set s.numCoins com).length := hlt
      have hlt2 : i < s.db.length := by simpa using hlt1
      have hne : s.numCoins ≠ i := by omega
      show (s.db.set s.numCoins com).getD i 0 = dummyCm
      rw [List.getD_eq_getElem _ _ hlt1]
      rw [List.getElem_set]
      simp only [hne, if_false]
      rw [← List.getD_eq_getElem s.db 0 hlt2]
      exact hempty i (by omega) hlt2
    · intro i _ hlt
      have hlen : i < (List.replicate (2 ^ MERKLE_TREE_LEVELS) dummyCm).length := hlt
      show (List.replicate (2 ^ MERKLE_TREE_LEVELS) dummyCm).getD i 0 = dummyCm
      rw [List.getD_eq_getElem _ _ hlen, List.getElem_replicate]
  · simp [add_coin_to_state, hk] at hcall

end Sequencer

namespace Concrete

/-- A tiny sequencer state for witnessing add_coin_spec: a depth-1 database
whose two slots hold the dummy commitment 9. -/
def c8s : Sequencer.SeqAppState := { db := [9, 9], numCoins := 0 }

/-- The state after adding commitment 5. -/
def c8s2 : Sequencer.SeqAppState := { db := [5, 9], numCoins := 1 }

/-- The opening captured before the update. -/
def c8old : Sequencer.SeqOpening := Sequencer.assembleMerkleProof h2c lHc 1 c8s 0

/-- The opening captured after the update. -/
def c8new : Sequencer.SeqOpening := Sequencer.assembleMerkleProof h2c lHc 1 c8s2 0

end Concrete

namespace Sequencer

/-- Witness for add_coin_spec on the tiny concrete state. -/
theorem add_coin_spec_witness :
    (0 : Nat) = Concrete.c8s.numCoins ∧
    Concrete.c8old = assembleMerkleProof Concrete.h2c Concrete.lHc 1 Concrete.c8s 0 ∧
    Concrete.c8s2.db = Concrete.c8s.db.set 0 5 ∧
    Concrete.c8s2.numCoins = Concrete.c8s.numCoins + 1 ∧
    Concrete.c8new = assembleMerkleProof Concrete.h2c Concrete.lHc 1 Concrete.c8s2 0 ∧
    Concrete.c8old.record = Concrete.c8s.db.getD 0 0 ∧
    Concrete.c8new.record = 5 ∧
    (slotsEmptyBeyond 9 Concrete.c8s → Concrete.c8old.record = 9) ∧
    (slotsEmptyBeyond 9 Concrete.c8s → slotsEmptyBeyond 9 Concrete.c8s2) ∧
    slotsEmptyBeyond 9 (seqStart 9) :=
  add_coin_spec Concrete.h2c Concrete.lHc 1 9 Concrete.c8s 5
    Concrete.c8s2 Concrete.c8old Concrete.c8new 0 rfl

end Sequencer

namespace Circuits

instance (a b : List Nat) : Decidable (zipEq a b) := by
  unfold zipEq
  infer_instance

instance (h2 : Hash → Hash → Hash) (lH : List Nat → Nat) (o : MUOpeningW) :
    Decidable (concreteMTCheck h2 lH o) := by
  unfold concreteMTCheck
  infer_instance

lemma eq_of_zipEq : ∀ (a b : List Nat), a.length = b.length → zipEq a b → a = b := by
  intro a
  induction a with
  | nil =>
    intro b hlen _
    cases b with
    | nil => rfl
    | cons y ys => simp at hlen
  | cons x xs ih =>
    intro b hlen hz
    cases b with
    | nil => simp at hlen
    | cons y ys =>
      have hx : x = y := hz (x, y) (by simp)
      have htail : zipEq xs ys := fun p hp => hz p (by simp [hp])
      have hlen2 : xs.length = ys.length := by simpa using hlen
      rw [hx, ih ys hlen2 htail]

/-- Claim C7: any assignment satisfying the Payment circuit constraints has the
input and the output note agreeing byte for byte on the asset_id field and on
the amount field (the byte vectors of well-formed records have equal length,
31 bytes each). -/
theorem payment_circuit_conservation
    (commitEval : (Fin 5 → List Nat) → Nat × Nat)
    (prfEval : List Nat → List Nat → List Nat)
    (fieldBytes : Nat → List Nat)
    (mtCheck : MUOpeningW → Prop)
    (pub : PaymentPublicW) (w : PaymentWitnessW)
    (hrel : paymentRel commitEval prfEval fieldBytes mtCheck pub w)
    (hlenAmt : (w.inputUtxo.fields AMOUNT).length = (w.outputUtxo.fields AMOUNT).length)
    (hlenAid : (w.inputUtxo.fields ASSET_ID).length = (w.outputUtxo.fields ASSET_ID).length) :
    w.inputUtxo.fields ASSET_ID = w.outputUtxo.fields ASSET_ID ∧
    w.inputUtxo.fields AMOUNT = w.outputUtxo.fields AMOUNT := by
  obtain ⟨_, _, _, _, _, _, _, _, _, _, _, _, _, _, hAmt, hAid⟩ := hrel
  exact ⟨eq_of_zipEq _ _ hlenAid hAid, eq_of_zipEq _ _ hlenAmt hAmt⟩

end Circuits

namespace Concrete

open Circuits

/-- Leaf-bytes hash stand-in for the external Merkle leaf gadget. -/
def lHlc (l : List Nat) : Nat := l.sum + 100

/-- Shared authentication path of the counterexample openings. -/
def muPathCE : MUPathW :=
  { path := [], authPath := [], leafSibling := 3, leafIsRightChild := false }

/-- The opening used for both the old and new proof of the counterexample:
record (5, 6), leaf bytes [5], root = H(leafHash [5], 3) = 220 encoded as the
point (220, 221). -/
def muOpenCE : MUOpeningW :=
  { rootX := 220, rootY := 221, recordX := 5, recordY := 6,
    leafBytes := [5], pathW := muPathCE }

/-- Counterexample public inputs: leaf_value_y = 999 differs from the new
record y-coordinate 6, and leaf_index = 123 differs from the path leaf
position 0. -/
def muPubCE : MUPublicW :=
  { leafIndex := 123, leafValueX := 5, leafValueY := 999,
    oldRootX := 220, oldRootY := 221, newRootX := 220, newRootY := 221 }

/-- Counterexample witness. -/
def muWitCE : MUWitnessW :=
  { leafIndex := 0, oldProof := muOpenCE, newProof := muOpenCE }

end Concrete

namespace Circuits

/-- Claim C6, counterexample: a satisfying assignment of the MerkleUpdate relation
in which the public leaf_value_y differs from the new opening leaf
y-coordinate and the public leaf_index differs from the openings leaf
position — the circuit allocates but never constrains these two public
inputs. -/
theorem merkle_update_inputs_unbound :
    merkleUpdateRel (concreteMTCheck Concrete.h2c Concrete.lHlc)
      (fun n => [n]) Concrete.muPubCE Concrete.muWitCE ∧
    ¬ (Concrete.muPubCE.leafValueY = Concrete.muWitCE.newProof.recordY) ∧
    ¬ (Concrete.muPubCE.leafIndex = pathLeafIndex Concrete.muWitCE.newProof.pathW) := by
  refine ⟨?_, by decide, by decide⟩
  unfold merkleUpdateRel
  refine ⟨by decide, by decide, rfl, rfl, rfl, rfl, rfl, by decide⟩

/-- Claim C6 amended: the MerkleUpdate relation binds the four root public inputs
byte-wise to the openings roots, binds the leaf_value_x bytes to the new
opening leaf bytes, and forces both openings through the Merkle gadget on
one shared path; the leaf_index and leaf_value_y public inputs are left
unconstrained, so the relation also holds with those two replaced by any
values whatsoever. -/
theorem merkle_update_binding_amended (V : MUOpeningW → Prop)
    (fieldBytes : Nat → List Nat) (pub : MUPublicW) (w : MUWitnessW)
    (h : merkleUpdateRel V fieldBytes pub w) :
    (V w.oldProof ∧ V w.newProof ∧
     w.oldProof.pathW = w.newProof.pathW ∧
     fieldBytes pub.oldRootX = fieldBytes w.oldProof.rootX ∧
     fieldBytes pub.oldRootY = fieldBytes w.oldProof.rootY ∧
     fieldBytes pub.newRootX = fieldBytes w.newProof.rootX ∧
     fieldBytes pub.newRootY = fieldBytes w.newProof.rootY ∧
     zipEq (fieldBytes pub.leafValueX) w.newProof.leafBytes) ∧
    (∀ y idx, merkleUpdateRel V fieldBytes
        { pub with leafValueY := y, leafIndex := idx } w) := by
  exact ⟨h, fun y idx => h⟩

/-- Witness for merkle_update_binding_amended at a concrete satisfying
assignment, including the unconstrainedness of leaf_value_y and
leaf_index. -/
theorem merkle_update_binding_amended_witness :
    zipEq ((fun n => [n]) Concrete.muPubCE.leafValueX)
      Concrete.muWitCE.newProof.leafBytes ∧
    merkleUpdateRel (concreteMTCheck Concrete.h2c Concrete.lHlc) (fun n => [n])
      { Concrete.muPubCE with leafValueY := 0, leafIndex := 0 }
      Concrete.muWitCE := by
  have happ := merkle_update_binding_amended
    (concreteMTCheck Concrete.h2c Concrete.lHlc) (fun n => [n])
    Concrete.muPubCE Concrete.muWitCE
    (by
      unfold merkleUpdateRel
      refine ⟨by decide, by decide, rfl, rfl, rfl, rfl, rfl, by decide⟩)
  exact ⟨happ.1.2.2.2.2.2.2.2, happ.2 0 0⟩

end Circuits

namespace Concrete

open Circuits

/-- A concrete record whose five fields are the single byte 5. -/
def payRecW : JZRecordW := { fields := fun _ => [5] }

/-- Concrete Payment public inputs for the conservation witness. -/
def payPubW : PaymentPublicW :=
  { rootX := 1, rootY := 2, nullifier := 0, commitmentX := 0, commitmentY := 0 }

/-- Concrete Payment witness for the conservation witness. -/
def payWitW : PaymentWitnessW :=
  { inputUtxo := payRecW
    outputUtxo := payRecW
    inCommit := (0, 0)
    outCommit := (0, 0)
    nullifierPRF := { key := [], input := [5], output := [] }
    ownershipPRF := { key := [], input := [], output := [] }
    openingProof :=
      { rootX := 1, rootY := 2, recordX := 0, recordY := 0, leafBytes := [],
        pathW := { path := [], authPath := [], leafSibling := 0,
                   leafIsRightChild := false } } }

end Concrete

namespace Circuits

/-- Witness for payment_circuit_conservation at a concrete satisfying
assignment. -/
theorem payment_circuit_conservation_witness :
    Concrete.payWitW.inputUtxo.fields ASSET_ID =
      Concrete.payWitW.outputUtxo.fields ASSET_ID ∧
    Concrete.payWitW.inputUtxo.fields AMOUNT =
      Concrete.payWitW.outputUtxo.fields AMOUNT :=
  payment_circuit_conservation (fun _ => (0, 0)) (fun _ _ => []) (fun _ => [])
    (fun _ => True) Concrete.payPubW Concrete.payWitW
    (by
      unfold paymentRel
      exact ⟨rfl, rfl, rfl, rfl, trivial, by decide, by decide, by decide,
        by decide, by decide, by decide, by decide, rfl, rfl, by decide, by decide⟩)
    rfl rfl

end Circuits

end Sanctum
